import Mathlib

/-!
Verification of the chat-framework behavioral-GAN training engine.

The development shallowly embeds the parts of the code that the claims
speak about: the per-step output transforms of both generators, the
early-stopping generation loop of the trajectory generator, the rhythm
feature extractor, the gradient-penalty formula, the teacher-forcing
schedule, the checkpoint round trip, the discriminator packing edge
cases, the delta-to-absolute trajectory conversion, and the per-step
teacher-forcing decision.  Learned network components (LSTM cells,
linear layers with trained weights) are abstracted as function
parameters; all surrounding arithmetic and control flow is translated
directly from the source.
-/

/-! ## Generator output transforms (models/generator.py of both variants) -/

/-- Softplus as used by torch: log(1 + exp x). -/
noncomputable def softplus (x : ℝ) : ℝ := Real.log (1 + Real.exp x)

/-- Keystroke generator per-step output transform, generator.py line 116:
`output = F.softplus(output) + 0.005` applied to both channels. -/
noncomputable def kbOutputTransform (raw : ℝ × ℝ) : ℝ × ℝ :=
  (softplus raw.1 + 0.005, softplus raw.2 + 0.005)

/-- Trajectory generator per-step output transform, generator.py lines
142-145: dx and dy pass through, dt becomes softplus + 0.001. -/
noncomputable def trajOutputTransform (raw : ℝ × ℝ × ℝ) : ℝ × ℝ × ℝ :=
  (raw.1, raw.2.1, softplus raw.2.2 + 0.001)

/-! ## Teacher-forcing schedule (training/trainer.py, both variants) -/

/-- Configuration slice read by get_teacher_forcing_ratio. -/
structure TFConfig where
  teacherForcingStart : ℚ
  teacherForcingEnd : ℚ
  teacherForcingDecayEpochs : ℕ

/-- Translation of Trainer.get_teacher_forcing_ratio: linear decay from
the start value to the end value over the decay horizon, then constant. -/
def teacherForcingRatioAt (cfg : TFConfig) (epoch : ℕ) : ℚ :=
  if cfg.teacherForcingDecayEpochs ≤ epoch then cfg.teacherForcingEnd
  else
    cfg.teacherForcingStart -
      ((epoch : ℚ) / (cfg.teacherForcingDecayEpochs : ℚ)) *
        (cfg.teacherForcingStart - cfg.teacherForcingEnd)

/-! ## Rhythm features (keyboard_dynamics_gan/models/rhythm.py) -/

/-- Clamp a value into the interval from lo to hi, as torch.clamp does. -/
def clampQ (lo hi x : ℚ) : ℚ := min (max x lo) hi

/-- Epsilon used throughout division in compute_rhythm_features. -/
def rhythmEps : ℚ := 1 / 100000000

/-- Digraph time of step t: hold + flight. -/
def digraphTime (hold flight : ℕ → ℚ) (t : ℕ) : ℚ := hold t + flight t

/-- Unclamped typing speed: inverse of digraph time plus epsilon. -/
def typingSpeedRaw (hold flight : ℕ → ℚ) (t : ℕ) : ℚ :=
  1 / (digraphTime hold flight t + rhythmEps)

/-- Unclamped speed change: first difference of the unclamped speed,
zero at position 0 (the edge policy gives derivative features no
undefined lookups). -/
def speedChangeRaw (hold flight : ℕ → ℚ) (t : ℕ) : ℚ :=
  match t with
  | 0 => 0
  | u + 1 => typingSpeedRaw hold flight (u + 1) - typingSpeedRaw hold flight u

/-- Unclamped hold ratio: hold over digraph time plus epsilon. -/
def holdRatioRaw (hold flight : ℕ → ℚ) (t : ℕ) : ℚ :=
  hold t / (digraphTime hold flight t + rhythmEps)

/-- Unclamped typing jerk: difference of consecutive unclamped speed
changes, zero at positions 0 and 1. -/
def typingJerkRaw (hold flight : ℕ → ℚ) (t : ℕ) : ℚ :=
  match t with
  | 0 => 0
  | 1 => 0
  | u + 2 => speedChangeRaw hold flight (u + 2) - speedChangeRaw hold flight (u + 1)

/-- Translation of compute_rhythm_features: the 7 per-step features
[hold, flight, digraph, speed, speed_change, hold_ratio, jerk], with the
clamps applied after the raw differences are formed, exactly as in the
source ordering. -/
def computeRhythmFeatures (hold flight : ℕ → ℚ) (t : ℕ) : Fin 7 → ℚ :=
  ![hold t,
    flight t,
    digraphTime hold flight t,
    clampQ 0 100 (typingSpeedRaw hold flight t),
    clampQ (-100) 100 (speedChangeRaw hold flight t),
    clampQ 0 1 (holdRatioRaw hold flight t),
    clampQ (-1000) 1000 (typingJerkRaw hold flight t)]

/-! ## Checkpoints (training/trainer.py, both variants) -/

/-- The mutable trainer fields that interact with checkpointing.  The
parameter types stand for the opaque serialized state dictionaries. -/
structure TrainerState (GP DP GO DO CF : Type) where
  epoch : ℕ
  genParams : GP
  discParams : DP
  gOptState : GO
  dOptState : DO
  config : CF
  bestLoss : ℝ
  patienceCounter : ℕ
  dStep : ℕ

/-- The checkpoint dictionary written by Trainer.save_checkpoint. -/
structure Checkpoint (GP DP GO DO CF : Type) where
  epoch : ℕ
  generatorStateDict : GP
  discriminatorStateDict : DP
  gOptimizerStateDict : GO
  dOptimizerStateDict : DO
  config : CF
  bestLoss : ℝ

/-- Translation of Trainer.save_checkpoint: build the checkpoint record
from the trainer fields. -/
def saveCheckpoint {GP DP GO DO CF : Type} (t : TrainerState GP DP GO DO CF) :
    Checkpoint GP DP GO DO CF :=
  { epoch := t.epoch
    generatorStateDict := t.genParams
    discriminatorStateDict := t.discParams
    gOptimizerStateDict := t.gOptState
    dOptimizerStateDict := t.dOptState
    config := t.config
    bestLoss := t.bestLoss }

/-- Translation of Trainer.load_checkpoint: restore the epoch counter,
both parameter sets, both optimizer states and the best loss into the
receiving trainer; the config field of the trainer is not overwritten. -/
def loadCheckpoint {GP DP GO DO CF : Type} (t : TrainerState GP DP GO DO CF)
    (c : Checkpoint GP DP GO DO CF) : TrainerState GP DP GO DO CF :=
  { t with
    epoch := c.epoch
    genParams := c.generatorStateDict
    discParams := c.discriminatorStateDict
    gOptState := c.gOptimizerStateDict
    dOptState := c.dOptimizerStateDict
    bestLoss := c.bestLoss }

/-! ## Early-stopping generation (mouse_trajectory_gan/models/generator.py,
Generator.generate, lines 212-254)

The learned network determines, for each sequence of the batch, the
stream of (dx, dy) deltas emitted step by step; the control flow of the
generate loop never feeds the done flags or the recorded lengths back
into the network, so the embedding takes the delta streams as data and
translates the loop verbatim: per-step distance check against the
threshold, first-crossing length recording, whole-batch break, and the
final fix-up assigning the total number of executed steps to sequences
that never crossed. -/

/-- The per-batch data driving one generate call: start point, target
point and the emitted delta stream of every sequence. -/
structure GenData (n : ℕ) where
  startp : Fin n → ℝ × ℝ
  endp : Fin n → ℝ × ℝ
  delta : Fin n → ℕ → ℝ × ℝ

/-- Running position after t executed steps: the start plus the first t
deltas, exactly the current_pos accumulator of the loop. -/
def posAt (s : ℝ × ℝ) (d : ℕ → ℝ × ℝ) : ℕ → ℝ × ℝ
  | 0 => s
  | t + 1 => ((posAt s d t).1 + (d t).1, (posAt s d t).2 + (d t).2)

/-- Euclidean distance, as computed at line 235 of the source (square,
sum, square root; no epsilon at this call site). -/
noncomputable def distTo (p q : ℝ × ℝ) : ℝ :=
  Real.sqrt ((p.1 - q.1) ^ 2 + (p.2 - q.2) ^ 2)

/-- Running position of sequence i after t executed steps. -/
def gPos {n : ℕ} (d : GenData n) (i : Fin n) (t : ℕ) : ℝ × ℝ :=
  posAt (d.startp i) (d.delta i) t

/-- Sequence i has its running position within the threshold after t
executed steps. -/
noncomputable def finishedAt {n : ℕ} (d : GenData n) (T : ℝ) (i : Fin n) (t : ℕ) : Prop :=
  distTo (gPos d i t) (d.endp i) < T

/-- Sequence i has crossed the threshold at some step up to t. -/
def crossedBy {n : ℕ} (d : GenData n) (T : ℝ) (i : Fin n) (t : ℕ) : Prop :=
  ∃ u, 1 ≤ u ∧ u ≤ t ∧ finishedAt d T i u

/-- The first step count at which sequence i crosses the threshold. -/
noncomputable def firstCross {n : ℕ} (d : GenData n) (T : ℝ) (i : Fin n) : ℕ :=
  sInf {u | 1 ≤ u ∧ finishedAt d T i u}

/-- Loop state: the done flags and the recorded lengths. -/
structure GenSt (n : ℕ) where
  done : Fin n → Prop
  len : Fin n → ℕ

open Classical

/-- One iteration body at loop index t: the distance check uses the
position reached after executing step t, a newly finished and not yet
done sequence records length t + 1, and the done flags absorb the newly
finished sequences. -/
noncomputable def genStep {n : ℕ} (d : GenData n) (T : ℝ) (t : ℕ) (s : GenSt n) : GenSt n :=
  { done := fun i => s.done i ∨ finishedAt d T i (t + 1)
    len := fun i =>
      if finishedAt d T i (t + 1) ∧ ¬ s.done i then t + 1 else s.len i }

/-- Every sequence of the batch is done. -/
def allDone {n : ℕ} (s : GenSt n) : Prop := ∀ i, s.done i

/-- The generate loop from index t with the given remaining iteration
count: execute the body, break when every sequence is done or the
iterations are exhausted, and return the final state together with the
last executed loop index. -/
noncomputable def genLoop {n : ℕ} (d : GenData n) (T : ℝ) :
    ℕ → ℕ → GenSt n → GenSt n × ℕ
  | t, 0, s => (s, t)
  | t, fuel + 1, s =>
    if allDone (genStep d T t s) ∨ fuel = 0 then (genStep d T t s, t)
    else genLoop d T (t + 1) fuel (genStep d T t s)

/-- Translation of Generator.generate restricted to its length
bookkeeping: run the loop from index 0 with all flags clear, then assign
lastIndex + 1 to every sequence whose length is still 0.  Returns the
per-sequence lengths and the last executed loop index. -/
noncomputable def runGenerate {n : ℕ} (d : GenData n) (T : ℝ) (maxSteps : ℕ) :
    (Fin n → ℕ) × ℕ :=
  ((fun i =>
      if (genLoop d T 0 maxSteps ⟨fun _ => False, fun _ => 0⟩).1.len i = 0
      then (genLoop d T 0 maxSteps ⟨fun _ => False, fun _ => 0⟩).2 + 1
      else (genLoop d T 0 maxSteps ⟨fun _ => False, fun _ => 0⟩).1.len i),
    (genLoop d T 0 maxSteps ⟨fun _ => False, fun _ => 0⟩).2)

/-- Loop invariant before executing step t: the done flag of a sequence
holds exactly when it has crossed within the first t step counts, and
its recorded length is the first crossing when done and 0 otherwise. -/
def genInv {n : ℕ} (d : GenData n) (T : ℝ) (t : ℕ) (s : GenSt n) : Prop :=
  ∀ i, (s.done i ↔ crossedBy d T i t) ∧
    (crossedBy d T i t → s.len i = firstCross d T i) ∧
    (¬ crossedBy d T i t → s.len i = 0)

/-! ## Gradient penalty (mouse_trajectory_gan/training/losses.py,
compute_gradient_penalty, lines 34-71)

The critic and the automatic differentiation through it are opaque
learned components; the embedding keeps the gradient returned by
autograd as an oracle parameter and translates the surrounding
computation: truncation of both inputs to the common minimum padded
width, clamping of the lengths, per-sequence interpolation with a
single coefficient shared by the trajectory and the dt tensors, the
flattened two-norm over all non-batch dimensions, and the final mean of
squared deviations from 1. -/

/-- Inputs of one compute_gradient_penalty call. -/
structure GPInput (B : ℕ) where
  realTraj : Fin B → ℕ → ℝ × ℝ
  fakeTraj : Fin B → ℕ → ℝ × ℝ
  realDts : Fin B → ℕ → ℝ
  fakeDts : Fin B → ℕ → ℝ
  realWidth : ℕ
  fakeWidth : ℕ
  lengths : Fin B → ℕ
  alpha : Fin B → ℝ

/-- Common minimum padded width both inputs are truncated to. -/
def gpMinLen {B : ℕ} (x : GPInput B) : ℕ := min x.realWidth x.fakeWidth

/-- Lengths clamped to the truncated width. -/
def gpLengths {B : ℕ} (x : GPInput B) (i : Fin B) : ℕ :=
  min (x.lengths i) (gpMinLen x)

/-- Interpolated trajectory: alpha is drawn once per sequence and
broadcast over time and channel. -/
def interpolatedTraj {B : ℕ} (x : GPInput B) (i : Fin B) (t : ℕ) : ℝ × ℝ :=
  (x.alpha i * (x.realTraj i t).1 + (1 - x.alpha i) * (x.fakeTraj i t).1,
   x.alpha i * (x.realTraj i t).2 + (1 - x.alpha i) * (x.fakeTraj i t).2)

/-- Interpolated dts: the same per-sequence coefficient, squeezed. -/
def interpolatedDts {B : ℕ} (x : GPInput B) (i : Fin B) (t : ℕ) : ℝ :=
  x.alpha i * x.realDts i t + (1 - x.alpha i) * x.fakeDts i t

/-- Two-norm of one gradient row flattened over all non-batch
dimensions: time and channel together. -/
noncomputable def flatNorm (g : ℕ → ℝ × ℝ) (L : ℕ) : ℝ :=
  Real.sqrt (∑ t ∈ Finset.range L, ((g t).1 ^ 2 + (g t).2 ^ 2))

/-- Translation of compute_gradient_penalty: the critic gradient with
respect to the interpolated tensor is supplied by the autograd oracle
gradOf, which sees the interpolated trajectory, the interpolated dts
and the clamped lengths; the penalty is the mean over the batch of the
squared deviation of the flattened gradient norm from 1. -/
noncomputable def computeGradientPenalty {B : ℕ} (x : GPInput B)
    (gradOf : (Fin B → ℕ → ℝ × ℝ) → (Fin B → ℕ → ℝ) → (Fin B → ℕ) →
      Fin B → ℕ → ℝ × ℝ) : ℝ :=
  (∑ i : Fin B,
      (flatNorm (gradOf (interpolatedTraj x) (interpolatedDts x) (gpLengths x) i)
          (gpMinLen x) - 1) ^ 2) / (B : ℝ)

/-! ## Delta-to-absolute conversion
(mouse_trajectory_gan/models/kinematics.py, trajectory_to_absolute,
lines 84-101, and its use in Trainer.train_discriminator_step,
training/trainer.py lines 97-121) -/

/-- Cumulative sums of a delta list starting from the given accumulator
value, as torch.cumsum produces along the time dimension. -/
def cumsumFrom (acc : ℝ × ℝ) : List (ℝ × ℝ) → List (ℝ × ℝ)
  | [] => []
  | x :: xs => (acc.1 + x.1, acc.2 + x.2) :: cumsumFrom (acc.1 + x.1, acc.2 + x.2) xs

/-- Cumulative sums of a delta list. -/
def cumsum (l : List (ℝ × ℝ)) : List (ℝ × ℝ) := cumsumFrom (0, 0) l

/-- Translation of trajectory_to_absolute for one sequence: cumulative
sums of the deltas, shifted by the start, with the start itself placed
in front. -/
def trajectoryToAbsolute (start : ℝ × ℝ) (deltas : List (ℝ × ℝ)) :
    List (ℝ × ℝ) :=
  start :: (cumsum deltas).map fun p => (p.1 + start.1, p.2 + start.2)

/-- The arguments Trainer.train_discriminator_step passes to the
discriminator for one real sequence: the absolute trajectory, the dt
vector padded with one leading 0.001 entry, and the length plus one. -/
def discRealArgs (start : ℝ × ℝ) (seq : List (ℝ × ℝ × ℝ)) (length : ℕ) :
    List (ℝ × ℝ) × List ℝ × ℕ :=
  (trajectoryToAbsolute start (seq.map fun s => (s.1, s.2.1)),
   0.001 :: seq.map (fun s => s.2.2),
   length + 1)

/-! ## Training-mode forward loops (Generator.forward of both variants)

The learned cells (character embedding, condition encoder, LSTM and
output projection with trained weights) are abstracted into one step
function per sequence; the loop over time, the output transform, the
shared per-step Bernoulli draw torch.rand(1).item() < ratio and, for
the trajectory variant, the running-position bookkeeping including the
ground-truth re-summation under forcing, are translated from the
source. -/

/-- Abstract keystroke generator batch: per-sequence recurrent step
(consuming the hidden state, the time index selecting the character
embedding, and the previous timing), initial hidden states, and the
learnable initial timing token. -/
structure KbGen (n : ℕ) (S : Type) where
  step : Fin n → S → ℕ → (ℝ × ℝ) → S × (ℝ × ℝ)
  initState : Fin n → S
  initialTiming : ℝ × ℝ

/-- State trace of the keystroke forward loop before step t: hidden
states and the previous timing fed into step t.  At each step the
next input is the ground-truth step when targets are available and the
single shared draw rand t falls below the ratio, and the own
(transformed) prediction otherwise. -/
noncomputable def kbStates {n : ℕ} {S : Type} (g : KbGen n S)
    (targets : Option (Fin n → ℕ → ℝ × ℝ)) (ratio : ℝ) (rand : ℕ → ℝ) :
    ℕ → (Fin n → S) × (Fin n → ℝ × ℝ)
  | 0 => (g.initState, fun _ => g.initialTiming)
  | t + 1 =>
    let prev := kbStates g targets ratio rand t
    let res := fun i => g.step i (prev.1 i) t (prev.2 i)
    let out := fun i => kbOutputTransform (res i).2
    (fun i => (res i).1,
     fun i =>
       match targets with
       | some tgt => if rand t < ratio then tgt i t else out i
       | none => out i)

/-- Output of the keystroke forward loop at step t for sequence i. -/
noncomputable def kbOutput {n : ℕ} {S : Type} (g : KbGen n S)
    (targets : Option (Fin n → ℕ → ℝ × ℝ)) (ratio : ℝ) (rand : ℕ → ℝ)
    (i : Fin n) (t : ℕ) : ℝ × ℝ :=
  kbOutputTransform
    (g.step i ((kbStates g targets ratio rand t).1 i) t
      ((kbStates g targets ratio rand t).2 i)).2

/-- The input chosen at the end of step t to feed step t + 1 for
sequence i of the keystroke forward loop. -/
noncomputable def kbChosen {n : ℕ} {S : Type} (g : KbGen n S)
    (targets : Option (Fin n → ℕ → ℝ × ℝ)) (ratio : ℝ) (rand : ℕ → ℝ)
    (i : Fin n) (t : ℕ) : ℝ × ℝ :=
  (kbStates g targets ratio rand (t + 1)).2 i

/-- atan2 with the torch sign convention, as the argument of the
complex number x + i y. -/
noncomputable def atan2 (y x : ℝ) : ℝ := Complex.arg ⟨x, y⟩

/-- Dynamic features recomputed each step from the running position:
remaining displacement, remaining distance (with the 1e-8 term under
the square root) and remaining angle. -/
noncomputable def dynamicFeatures (pos endp : ℝ × ℝ) : ℝ × ℝ × ℝ × ℝ :=
  (endp.1 - pos.1, endp.2 - pos.2,
   Real.sqrt ((endp.1 - pos.1) ^ 2 + (endp.2 - pos.2) ^ 2 + 1e-8),
   atan2 (endp.2 - pos.2) (endp.1 - pos.1))

/-- Abstract trajectory generator batch: per-sequence recurrent step
(consuming the hidden state, the current input triple and the dynamic
features), initial hidden states, the learnable initial input token,
and the start and target points. -/
structure TrajGen (n : ℕ) (S : Type) where
  step : Fin n → S → (ℝ × ℝ × ℝ) → (ℝ × ℝ × ℝ × ℝ) → S × (ℝ × ℝ × ℝ)
  initState : Fin n → S
  initialInput : ℝ × ℝ × ℝ
  startp : Fin n → ℝ × ℝ
  endp : Fin n → ℝ × ℝ

/-- State trace of the trajectory forward loop before step t: hidden
states, current inputs and running positions.  Under the single shared
draw the forced branch feeds the ground-truth step and rebuilds the
running position by re-summing all ground-truth deltas up to and
including step t; the free branch feeds the own prediction and
accumulates its delta. -/
noncomputable def trajStates {n : ℕ} {S : Type} (g : TrajGen n S)
    (targets : Option (Fin n → ℕ → ℝ × ℝ × ℝ)) (ratio : ℝ) (rand : ℕ → ℝ) :
    ℕ → (Fin n → S) × (Fin n → ℝ × ℝ × ℝ) × (Fin n → ℝ × ℝ)
  | 0 => (g.initState, fun _ => g.initialInput, g.startp)
  | t + 1 =>
    let prev := trajStates g targets ratio rand t
    let res := fun i =>
      g.step i (prev.1 i) (prev.2.1 i) (dynamicFeatures (prev.2.2 i) (g.endp i))
    let out := fun i => trajOutputTransform (res i).2
    (fun i => (res i).1,
     fun i =>
       match targets with
       | some tgt => if rand t < ratio then tgt i t else out i
       | none => out i,
     fun i =>
       match targets with
       | some tgt =>
         if rand t < ratio then
           posAt (g.startp i) (fun k => ((tgt i k).1, (tgt i k).2.1)) (t + 1)
         else ((prev.2.2 i).1 + (out i).1, (prev.2.2 i).2 + (out i).2.1)
       | none => ((prev.2.2 i).1 + (out i).1, (prev.2.2 i).2 + (out i).2.1))

/-- Output of the trajectory forward loop at step t for sequence i. -/
noncomputable def trajOutput {n : ℕ} {S : Type} (g : TrajGen n S)
    (targets : Option (Fin n → ℕ → ℝ × ℝ × ℝ)) (ratio : ℝ) (rand : ℕ → ℝ)
    (i : Fin n) (t : ℕ) : ℝ × ℝ × ℝ :=
  trajOutputTransform
    (g.step i ((trajStates g targets ratio rand t).1 i)
      ((trajStates g targets ratio rand t).2.1 i)
      (dynamicFeatures ((trajStates g targets ratio rand t).2.2 i) (g.endp i))).2

/-- The input chosen at the end of step t to feed step t + 1 for
sequence i of the trajectory forward loop. -/
noncomputable def trajChosen {n : ℕ} {S : Type} (g : TrajGen n S)
    (targets : Option (Fin n → ℕ → ℝ × ℝ × ℝ)) (ratio : ℝ) (rand : ℕ → ℝ)
    (i : Fin n) (t : ℕ) : ℝ × ℝ × ℝ :=
  (trajStates g targets ratio rand (t + 1)).2.1 i

/-! ## Kinematic features (mouse_trajectory_gan/models/kinematics.py,
compute_kinematics, lines 6-81) -/

/-- Epsilon used throughout compute_kinematics. -/
noncomputable def kEps : ℝ := 1e-8

/-- Clamp over the reals, as torch.clamp does. -/
noncomputable def clampR (lo hi x : ℝ) : ℝ := min (max x lo) hi

/-- First difference of the x coordinate, zero at position 0. -/
def kDx (pos : ℕ → ℝ × ℝ) (t : ℕ) : ℝ :=
  match t with
  | 0 => 0
  | u + 1 => (pos (u + 1)).1 - (pos u).1

/-- First difference of the y coordinate, zero at position 0. -/
def kDy (pos : ℕ → ℝ × ℝ) (t : ℕ) : ℝ :=
  match t with
  | 0 => 0
  | u + 1 => (pos (u + 1)).2 - (pos u).2

/-- Unclamped velocity magnitude: displacement over dt plus epsilon. -/
noncomputable def kVelocityRaw (pos : ℕ → ℝ × ℝ) (dts : ℕ → ℝ) (t : ℕ) : ℝ :=
  Real.sqrt ((kDx pos t) ^ 2 + (kDy pos t) ^ 2 + kEps) / (dts t + kEps)

/-- Velocity x component. -/
noncomputable def kVx (pos : ℕ → ℝ × ℝ) (dts : ℕ → ℝ) (t : ℕ) : ℝ :=
  kDx pos t / (dts t + kEps)

/-- Velocity y component. -/
noncomputable def kVy (pos : ℕ → ℝ × ℝ) (dts : ℕ → ℝ) (t : ℕ) : ℝ :=
  kDy pos t / (dts t + kEps)

/-- Midpoint dt with epsilon, used from position 1 on. -/
noncomputable def kDtMid (dts : ℕ → ℝ) (t : ℕ) : ℝ :=
  match t with
  | 0 => 0
  | u + 1 => (dts (u + 1) + dts u) / 2 + kEps

/-- Unclamped acceleration: velocity difference over midpoint dt, zero
at position 0. -/
noncomputable def kAccelerationRaw (pos : ℕ → ℝ × ℝ) (dts : ℕ → ℝ) (t : ℕ) : ℝ :=
  match t with
  | 0 => 0
  | u + 1 =>
    (kVelocityRaw pos dts (u + 1) - kVelocityRaw pos dts u) / kDtMid dts (u + 1)

/-- Unclamped jerk: acceleration difference over midpoint dt plus a
second epsilon, zero at positions 0 and 1. -/
noncomputable def kJerkRaw (pos : ℕ → ℝ × ℝ) (dts : ℕ → ℝ) (t : ℕ) : ℝ :=
  match t with
  | 0 => 0
  | 1 => 0
  | u + 2 =>
    (kAccelerationRaw pos dts (u + 2) - kAccelerationRaw pos dts (u + 1)) /
      (kDtMid dts (u + 2) + kEps)

/-- Acceleration x component, zero at position 0. -/
noncomputable def kAx (pos : ℕ → ℝ × ℝ) (dts : ℕ → ℝ) (t : ℕ) : ℝ :=
  match t with
  | 0 => 0
  | u + 1 => (kVx pos dts (u + 1) - kVx pos dts u) / kDtMid dts (u + 1)

/-- Acceleration y component, zero at position 0. -/
noncomputable def kAy (pos : ℕ → ℝ × ℝ) (dts : ℕ → ℝ) (t : ℕ) : ℝ :=
  match t with
  | 0 => 0
  | u + 1 => (kVy pos dts (u + 1) - kVy pos dts u) / kDtMid dts (u + 1)

/-- Unclamped curvature: absolute cross product of velocity and
acceleration over the cubed speed. -/
noncomputable def kCurvatureRaw (pos : ℕ → ℝ × ℝ) (dts : ℕ → ℝ) (t : ℕ) : ℝ :=
  |kVx pos dts t * kAy pos dts t - kVy pos dts t * kAx pos dts t| /
    Real.rpow ((kVx pos dts t) ^ 2 + (kVy pos dts t) ^ 2 + kEps) 1.5

/-- Translation of compute_kinematics: the 9 per-step features
[x, y, dx, dy, dt, velocity, acceleration, jerk, curvature] with the
clamps applied after the raw values are formed. -/
noncomputable def computeKinematics (pos : ℕ → ℝ × ℝ) (dts : ℕ → ℝ) (t : ℕ) :
    Fin 9 → ℝ :=
  ![(pos t).1,
    (pos t).2,
    kDx pos t,
    kDy pos t,
    dts t,
    clampR 0 100 (kVelocityRaw pos dts t),
    clampR (-1000) 1000 (kAccelerationRaw pos dts t),
    clampR (-10000) 10000 (kJerkRaw pos dts t),
    clampR 0 100 (kCurvatureRaw pos dts t)]

/-! ## Discriminator forward passes (models/discriminator.py of both
variants, Discriminator.forward)

The spectral-norm linear encoder, the bidirectional LSTM and the output
head are learned and abstracted as functions; the feature computation,
the clamping of the lengths to at least 1 before packing, and the
precondition of pack_padded_sequence (every packed length between 1 and
the padded width, or a raised error modeled as none) are translated
from the source. -/

/-- Lengths as handed to pack_padded_sequence: clamped to a minimum of
1 as in lengths.cpu().clamp(min=1). -/
def packLengths {B : ℕ} (lengths : Fin B → ℕ) (i : Fin B) : ℕ :=
  max (lengths i) 1

/-- Abstract learned components of the trajectory discriminator. -/
structure MouseDiscNet (V H : Type) where
  encoder : (Fin 9 → ℝ) → V
  bilstm : List V → H
  head : H → ℝ

/-- Translation of the trajectory Discriminator.forward: kinematic
features, per-step encoder, packing of the clamped-length prefix of
each sequence (returning none when a packed length falls outside
1..width, the case in which pack_padded_sequence raises), bidirectional
recurrent encoder and scalar head; the result is one score row of width
1 per sequence. -/
noncomputable def mouseDiscForward {B : ℕ} {V H : Type} (net : MouseDiscNet V H)
    (trajectories : Fin B → ℕ → ℝ × ℝ) (dts : Fin B → ℕ → ℝ)
    (lengths : Fin B → ℕ) (W : ℕ) : Option (List (List ℝ)) :=
  if ∀ i, packLengths lengths i ≤ W then
    some (List.ofFn fun i : Fin B =>
      [net.head (net.bilstm ((List.range (packLengths lengths i)).map fun t =>
        net.encoder (computeKinematics (trajectories i) (dts i) t)))])
  else none

/-- Abstract learned components of the keystroke discriminator. -/
structure KbDiscNet (E V H : Type) where
  charEmbedding : ℕ → E
  encoder : E × (Fin 7 → ℚ) → V
  bilstm : List V → H
  head : H → ℝ

/-- Translation of the keystroke Discriminator.forward: rhythm
features, character embedding (returning none when an id reaches the
vocabulary bound, the case in which the embedding lookup raises),
per-step encoder over the concatenated embedding and features, packing
of the clamped-length prefix (none when a packed length falls outside
1..width), bidirectional recurrent encoder and scalar head. -/
noncomputable def kbDiscForward {B : ℕ} {E V H : Type} (net : KbDiscNet E V H)
    (vocab : ℕ) (charIds : Fin B → ℕ → ℕ) (hold flight : Fin B → ℕ → ℚ)
    (lengths : Fin B → ℕ) (W : ℕ) : Option (List (List ℝ)) :=
  if (∀ i, ∀ t < W, charIds i t < vocab) ∧ (∀ i, packLengths lengths i ≤ W) then
    some (List.ofFn fun i : Fin B =>
      [net.head (net.bilstm ((List.range (packLengths lengths i)).map fun t =>
        net.encoder (net.charEmbedding (charIds i t),
          computeRhythmFeatures (hold i) (flight i) t)))])
  else none

/-! ## Call-boundary shape checking (mouse Generator._compute_condition,
generator.py lines 56-67, and keystroke Generator.forward lines 87-111)

Tensors of one call share the batch dimension; a tensor is modeled by
its trailing width together with its entries, and each torch operation
that can raise on a shape mismatch returns none in that case: the
elementwise subtraction (equal widths or broadcasting against width 1),
atan2 (equal widths), and the linear layers whose learned weight matrix
fixes the expected input width.  Slicing and reduction follow the torch
width arithmetic and never raise. -/

/-- A batched tensor with a trailing width: every sequence of the batch
holds cols scalars. -/
structure Mat (B : ℕ) where
  cols : ℕ
  ent : Fin B → ℕ → ℝ

/-- Elementwise subtraction with torch broadcasting on the trailing
dimension: equal widths, or one side of width 1 stretched; any other
pair of widths raises. -/
def matSub {B : ℕ} (a b : Mat B) : Option (Mat B) :=
  if a.cols = b.cols then some ⟨a.cols, fun i t => a.ent i t - b.ent i t⟩
  else if a.cols = 1 then some ⟨b.cols, fun i t => a.ent i 0 - b.ent i t⟩
  else if b.cols = 1 then some ⟨a.cols, fun i t => a.ent i t - b.ent i 0⟩
  else none

/-- Slice of the trailing dimension, with the torch clamping width
arithmetic (an out-of-range slice is empty, not an error). -/
def matSlice {B : ℕ} (a : Mat B) (lo hi : ℕ) : Mat B :=
  ⟨min hi a.cols - min lo a.cols, fun i t => a.ent i (lo + t)⟩

/-- The distance column: square, sum over the trailing dimension with
keepdim, add 1e-8, square root; always of width 1. -/
noncomputable def matDistCol {B : ℕ} (a : Mat B) : Mat B :=
  ⟨1, fun i _ => Real.sqrt ((∑ t ∈ Finset.range a.cols, (a.ent i t) ^ 2) + 1e-8)⟩

/-- Elementwise atan2 with torch broadcasting on the trailing
dimension: equal widths, or one side of width 1 stretched; any other
pair of widths raises. -/
noncomputable def matAtan2 {B : ℕ} (y x : Mat B) : Option (Mat B) :=
  if y.cols = x.cols then
    some ⟨y.cols, fun i t => atan2 (y.ent i t) (x.ent i t)⟩
  else if y.cols = 1 then some ⟨x.cols, fun i t => atan2 (y.ent i 0) (x.ent i t)⟩
  else if x.cols = 1 then some ⟨y.cols, fun i t => atan2 (y.ent i t) (x.ent i 0)⟩
  else none

/-- Entry lookup of a trailing-dimension concatenation. -/
def catEnt {B : ℕ} : List (Mat B) → Fin B → ℕ → ℝ
  | [], _, _ => 0
  | a :: rest, i, t => if t < a.cols then a.ent i t else catEnt rest i (t - a.cols)

/-- Concatenation along the trailing dimension; the batch dimensions
agree by construction. -/
def matCat {B : ℕ} (l : List (Mat B)) : Mat B :=
  ⟨(l.map Mat.cols).sum, catEnt l⟩

/-- A linear layer: the learned weight matrix fixes the expected input
width, and a call whose input width disagrees raises. -/
noncomputable def matLinear {B : ℕ} (inF outF : ℕ) (w : ℕ → ℕ → ℝ) (bias : ℕ → ℝ)
    (x : Mat B) : Option (Mat B) :=
  if x.cols = inF then
    some ⟨outF, fun i o => (∑ t ∈ Finset.range inF, w o t * x.ent i t) + bias o⟩
  else none

/-- The learned pieces of one two-layer condition encoder: two linear
layers and the two shape-preserving LayerNorm plus LeakyReLU stages
acting on the entries. -/
structure CondEncNet (B : ℕ) where
  w1 : ℕ → ℕ → ℝ
  b1 : ℕ → ℝ
  norm1 : (Fin B → ℕ → ℝ) → (Fin B → ℕ → ℝ)
  w2 : ℕ → ℕ → ℝ
  b2 : ℕ → ℝ
  norm2 : (Fin B → ℕ → ℝ) → (Fin B → ℕ → ℝ)

/-- A shape-preserving stage (LayerNorm or LeakyReLU never raise and
keep the width). -/
def applyNorm {B : ℕ} (f : (Fin B → ℕ → ℝ) → (Fin B → ℕ → ℝ)) (x : Mat B) :
    Mat B :=
  ⟨x.cols, f x.ent⟩

/-- Translation of the mouse Generator._compute_condition: diff, its
distance column, atan2 of its second and first columns, concatenation
[start, end, distance, angle, z], then the condition encoder whose
first linear layer expects width 6 + latent_dim. -/
noncomputable def mouseComputeCondition {B : ℕ} (latentDim hiddenDim : ℕ)
    (net : CondEncNet B) (start endp z : Mat B) : Option (Mat B) :=
  (matSub endp start).bind fun diff =>
    (matAtan2 (matSlice diff 1 2) (matSlice diff 0 1)).bind fun angle =>
      (matLinear (6 + latentDim) hiddenDim net.w1 net.b1
          (matCat [start, endp, matDistCol diff, angle, z])).bind fun h1 =>
        (matLinear hiddenDim hiddenDim net.w2 net.b2
            (applyNorm net.norm1 h1)).bind fun h2 =>
          some (applyNorm net.norm2 h2)

/-- The keystroke condition encoder applied to z alone: its first
linear layer expects width latent_dim. -/
noncomputable def kbConditionEncoder {B : ℕ} (latentDim hiddenDim : ℕ)
    (net : CondEncNet B) (z : Mat B) : Option (Mat B) :=
  (matLinear latentDim hiddenDim net.w1 net.b1 z).bind fun h1 =>
    (matLinear hiddenDim hiddenDim net.w2 net.b2
        (applyNorm net.norm1 h1)).bind fun h2 =>
      some (applyNorm net.norm2 h2)

/-- Translation of the mouse Generator._compute_dynamic_features
(generator.py lines 69-82): remaining = end - current_pos (with torch
broadcasting), remaining distance with the 1e-8 term, atan2 of the
second and first remaining columns, concatenated. -/
noncomputable def mouseDynamicFeats {B : ℕ} (pos endp : Mat B) : Option (Mat B) :=
  (matSub endp pos).bind fun remaining =>
    (matAtan2 (matSlice remaining 1 2) (matSlice remaining 0 1)).bind fun angle =>
      some (matCat [remaining, matDistCol remaining, angle])

/-- The shape-checked boundary of the mouse Generator.forward call:
the condition encoder on (start, end, z), then the first decode step,
which computes the dynamic features from current_pos = start and feeds
the concatenation of the width-3 initial input, the condition and the
dynamic features to the recurrent cell whose learned input width is
3 + hidden + 4 (generator.py lines 38-39 and 127-138); a concatenation
of any other width makes the cell raise, modeled as none. -/
noncomputable def mouseForwardBoundary {B : ℕ} (latentDim hiddenDim : ℕ)
    (net : CondEncNet B) (init3 : Fin B → ℕ → ℝ) (start endp z : Mat B) :
    Option (Mat B × Mat B) :=
  (mouseComputeCondition latentDim hiddenDim net start endp z).bind fun cond =>
    (mouseDynamicFeats start endp).bind fun dyn =>
      if (matCat [⟨3, init3⟩, cond, dyn]).cols = 3 + hiddenDim + 4 then
        some (cond, dyn)
      else none

/-- An embedding lookup over a padded id matrix of width L: raises when
any id reaches the vocabulary bound. -/
def embeddingLookup {B : ℕ} (vocab : ℕ) (table : ℕ → ℕ → ℝ)
    (ids : Fin B → ℕ → ℕ) (L : ℕ) : Option (Fin B → ℕ → ℕ → ℝ) :=
  if ∀ i, ∀ t < L, ids i t < vocab then
    some fun i t e => table (ids i t) e
  else none

/-- The call-boundary prefix of the keystroke Generator.forward: the
condition encoder applied to z and the character embedding lookup,
the two operations that reject a wrong latent width or an
out-of-vocabulary id before the decode loop starts. -/
noncomputable def kbForwardBoundary {B : ℕ} (latentDim hiddenDim vocab L : ℕ)
    (net : CondEncNet B) (table : ℕ → ℕ → ℝ) (ids : Fin B → ℕ → ℕ)
    (z : Mat B) : Option (Mat B × (Fin B → ℕ → ℕ → ℝ)) :=
  (kbConditionEncoder latentDim hiddenDim net z).bind fun cond =>
    (embeddingLookup vocab table ids L).bind fun embeds =>
      some (cond, embeds)

/-! ## Theorems -/

/-- C1: in the keystroke generator both output channels equal
softplus(x) + 0.005 and are strictly positive for every real raw
output; in the trajectory generator the dt channel equals
softplus(x) + 0.001 and is strictly positive while dx and dy pass
through unchanged. -/
theorem generator_duration_channels_positive :
    (∀ x : ℝ, 0 < softplus x) ∧
    (∀ raw : ℝ × ℝ,
      kbOutputTransform raw = (softplus raw.1 + 0.005, softplus raw.2 + 0.005) ∧
      0 < (kbOutputTransform raw).1 ∧ 0 < (kbOutputTransform raw).2) ∧
    (∀ raw : ℝ × ℝ × ℝ,
      (trajOutputTransform raw).1 = raw.1 ∧
      (trajOutputTransform raw).2.1 = raw.2.1 ∧
      (trajOutputTransform raw).2.2 = softplus raw.2.2 + 0.001 ∧
      0 < (trajOutputTransform raw).2.2) := by
  have hsp : ∀ x : ℝ, 0 < softplus x := by
    intro x
    have h1 : (1 : ℝ) < 1 + Real.exp x := by
      have := Real.exp_pos x; linarith
    exact Real.log_pos h1
  refine ⟨hsp, fun raw => ⟨rfl, ?_, ?_⟩, fun raw => ⟨rfl, rfl, rfl, ?_⟩⟩
  · have := hsp raw.1
    simp only [kbOutputTransform]
    norm_num
    linarith
  · have := hsp raw.2
    simp only [kbOutputTransform]
    norm_num
    linarith
  · have := hsp raw.2.2
    simp only [trajOutputTransform]
    norm_num
    linarith

/-- Helper: a clamped value lies between its bounds when the bounds are
ordered. -/
theorem clampQ_mem (lo hi x : ℚ) (h : lo ≤ hi) :
    lo ≤ clampQ lo hi x ∧ clampQ lo hi x ≤ hi := by
  constructor
  · exact le_min (le_max_right x lo) h
  · exact min_le_right _ _

/-- C4 counterexample: with teacher_forcing_start = 0,
teacher_forcing_end = 1 and a decay horizon of 2 epochs, the ratio grows
from epoch 0 to epoch 1, so the schedule is not monotonically
non-increasing for every configuration. -/
theorem teacher_forcing_not_monotone_counterexample :
    ¬ (teacherForcingRatioAt ⟨0, 1, 2⟩ 1 ≤ teacherForcingRatioAt ⟨0, 1, 2⟩ 0) := by
  norm_num [teacherForcingRatioAt]

/-- C4 amended: for every configuration whose end value does not exceed
its start value, the teacher-forcing ratio is a pure function of the
epoch index that decays linearly from start to end over the decay
horizon, is monotonically non-increasing, and equals exactly the
configured end value at and after the horizon. -/
theorem teacher_forcing_schedule_spec (cfg : TFConfig)
    (h : cfg.teacherForcingEnd ≤ cfg.teacherForcingStart) :
    (∀ e, teacherForcingRatioAt cfg (e + 1) ≤ teacherForcingRatioAt cfg e) ∧
    (∀ e, cfg.teacherForcingDecayEpochs ≤ e →
      teacherForcingRatioAt cfg e = cfg.teacherForcingEnd) ∧
    (∀ e, e < cfg.teacherForcingDecayEpochs →
      teacherForcingRatioAt cfg e =
        cfg.teacherForcingStart -
          ((e : ℚ) / (cfg.teacherForcingDecayEpochs : ℚ)) *
            (cfg.teacherForcingStart - cfg.teacherForcingEnd)) := by
  refine ⟨?_, ?_, ?_⟩
  · intro e
    by_cases he : cfg.teacherForcingDecayEpochs ≤ e
    · have he1 : cfg.teacherForcingDecayEpochs ≤ e + 1 := le_trans he (Nat.le_succ e)
      simp [teacherForcingRatioAt, he, he1]
    · have hlt : e < cfg.teacherForcingDecayEpochs := Nat.lt_of_not_le he
      have hNpos : (0 : ℚ) < (cfg.teacherForcingDecayEpochs : ℚ) := by
        exact_mod_cast lt_of_le_of_lt (Nat.zero_le e) hlt
      have hdiff : (0 : ℚ) ≤ cfg.teacherForcingStart - cfg.teacherForcingEnd := by
        linarith
      by_cases he1 : cfg.teacherForcingDecayEpochs ≤ e + 1
      · have hfrac : (e : ℚ) / (cfg.teacherForcingDecayEpochs : ℚ) ≤ 1 := by
          rw [div_le_one hNpos]
          exact_mod_cast Nat.le_of_lt hlt
        have hmul : (e : ℚ) / (cfg.teacherForcingDecayEpochs : ℚ) *
            (cfg.teacherForcingStart - cfg.teacherForcingEnd) ≤
            cfg.teacherForcingStart - cfg.teacherForcingEnd := by
          nlinarith [div_nonneg (by positivity : (0:ℚ) ≤ (e : ℚ)) (le_of_lt hNpos)]
        simp only [teacherForcingRatioAt, if_pos he1, if_neg he]
        linarith
      · simp only [teacherForcingRatioAt, if_neg he, if_neg he1]
        have hstep : ((e : ℚ) + 1) / (cfg.teacherForcingDecayEpochs : ℚ) *
            (cfg.teacherForcingStart - cfg.teacherForcingEnd) -
            (e : ℚ) / (cfg.teacherForcingDecayEpochs : ℚ) *
            (cfg.teacherForcingStart - cfg.teacherForcingEnd) =
            (cfg.teacherForcingStart - cfg.teacherForcingEnd) /
              (cfg.teacherForcingDecayEpochs : ℚ) := by
          field_simp
          ring
        have hnn : (0 : ℚ) ≤ (cfg.teacherForcingStart - cfg.teacherForcingEnd) /
            (cfg.teacherForcingDecayEpochs : ℚ) :=
          div_nonneg hdiff (le_of_lt hNpos)
        push_cast
        linarith
  · intro e he
    simp [teacherForcingRatioAt, he]
  · intro e he
    simp [teacherForcingRatioAt, Nat.not_le.mpr he]

/-- C4 witness: the defaults (start 1, end 0, horizon 100) satisfy the
ordering hypothesis and hence the full schedule specification. -/
theorem teacher_forcing_schedule_witness :
    ((0 : ℚ) ≤ 1) ∧
    ((∀ e, teacherForcingRatioAt ⟨1, 0, 100⟩ (e + 1) ≤ teacherForcingRatioAt ⟨1, 0, 100⟩ e) ∧
     (∀ e, 100 ≤ e → teacherForcingRatioAt ⟨1, 0, 100⟩ e = 0) ∧
     (∀ e, e < 100 →
       teacherForcingRatioAt ⟨1, 0, 100⟩ e = 1 - ((e : ℚ) / (100 : ℚ)) * (1 - 0))) :=
  ⟨by norm_num, teacher_forcing_schedule_spec ⟨1, 0, 100⟩ (by norm_num)⟩

/-- C5: for every (hold, flight) input the extracted digraph feature
equals hold + flight exactly, the hold-ratio feature lies in [0, 1],
typing speed is clamped to [0, 100], speed difference to [-100, 100]
and jerk to [-1000, 1000], with epsilon 1e-8 added to every divisor. -/
theorem rhythm_features_spec (hold flight : ℕ → ℚ) (t : ℕ) :
    computeRhythmFeatures hold flight t 2 = hold t + flight t ∧
    (0 ≤ computeRhythmFeatures hold flight t 5 ∧
      computeRhythmFeatures hold flight t 5 ≤ 1) ∧
    (0 ≤ computeRhythmFeatures hold flight t 3 ∧
      computeRhythmFeatures hold flight t 3 ≤ 100) ∧
    (-100 ≤ computeRhythmFeatures hold flight t 4 ∧
      computeRhythmFeatures hold flight t 4 ≤ 100) ∧
    (-1000 ≤ computeRhythmFeatures hold flight t 6 ∧
      computeRhythmFeatures hold flight t 6 ≤ 1000) ∧
    computeRhythmFeatures hold flight t 3 =
      clampQ 0 100 (1 / (hold t + flight t + 1 / 100000000)) ∧
    computeRhythmFeatures hold flight t 5 =
      clampQ 0 1 (hold t / (hold t + flight t + 1 / 100000000)) := by
  refine ⟨rfl, ?_, ?_, ?_, ?_, ?_, ?_⟩
  · exact clampQ_mem 0 1 _ (by norm_num)
  · exact clampQ_mem 0 100 _ (by norm_num)
  · exact clampQ_mem (-100) 100 _ (by norm_num)
  · exact clampQ_mem (-1000) 1000 _ (by norm_num)
  · have h3 : computeRhythmFeatures hold flight t 3 =
        clampQ 0 100 (typingSpeedRaw hold flight t) := rfl
    rw [h3]
    simp [typingSpeedRaw, digraphTime, rhythmEps, add_assoc]
  · have h5 : computeRhythmFeatures hold flight t 5 =
        clampQ 0 1 (holdRatioRaw hold flight t) := rfl
    rw [h5]
    simp [holdRatioRaw, digraphTime, rhythmEps, add_assoc]

/-- C7: saving a checkpoint and loading it into a freshly constructed
trainer restores the epoch counter, generator parameters, discriminator
parameters, both optimizer states and the best loss; loading a
checkpoint and immediately resaving reproduces identical values for
every checkpoint field the load consumed. -/
theorem checkpoint_round_trip {GP DP GO DO CF : Type}
    (t fresh : TrainerState GP DP GO DO CF) (c : Checkpoint GP DP GO DO CF) :
    ((loadCheckpoint fresh (saveCheckpoint t)).epoch = t.epoch ∧
     (loadCheckpoint fresh (saveCheckpoint t)).genParams = t.genParams ∧
     (loadCheckpoint fresh (saveCheckpoint t)).discParams = t.discParams ∧
     (loadCheckpoint fresh (saveCheckpoint t)).gOptState = t.gOptState ∧
     (loadCheckpoint fresh (saveCheckpoint t)).dOptState = t.dOptState ∧
     (loadCheckpoint fresh (saveCheckpoint t)).bestLoss = t.bestLoss) ∧
    ((saveCheckpoint (loadCheckpoint t c)).epoch = c.epoch ∧
     (saveCheckpoint (loadCheckpoint t c)).generatorStateDict = c.generatorStateDict ∧
     (saveCheckpoint (loadCheckpoint t c)).discriminatorStateDict =
       c.discriminatorStateDict ∧
     (saveCheckpoint (loadCheckpoint t c)).gOptimizerStateDict = c.gOptimizerStateDict ∧
     (saveCheckpoint (loadCheckpoint t c)).dOptimizerStateDict = c.dOptimizerStateDict ∧
     (saveCheckpoint (loadCheckpoint t c)).bestLoss = c.bestLoss) :=
  ⟨⟨rfl, rfl, rfl, rfl, rfl, rfl⟩, ⟨rfl, rfl, rfl, rfl, rfl, rfl⟩⟩

/-- Helper: no sequence has crossed within 0 steps. -/
theorem crossedBy_zero {n : ℕ} (d : GenData n) (T : ℝ) (i : Fin n) :
    ¬ crossedBy d T i 0 := by
  rintro ⟨u, h1, h2, -⟩
  omega

/-- Helper: crossing within t + 1 steps means crossing within t steps or
finishing exactly at step t + 1. -/
theorem crossedBy_succ_iff {n : ℕ} (d : GenData n) (T : ℝ) (i : Fin n) (t : ℕ) :
    crossedBy d T i (t + 1) ↔ crossedBy d T i t ∨ finishedAt d T i (t + 1) := by
  constructor
  · rintro ⟨u, h1, h2, hf⟩
    rcases Nat.lt_or_ge u (t + 1) with hu | hu
    · exact Or.inl ⟨u, h1, by omega, hf⟩
    · have : u = t + 1 := by omega
      subst this
      exact Or.inr hf
  · rintro (⟨u, h1, h2, hf⟩ | hf)
    · exact ⟨u, h1, by omega, hf⟩
    · exact ⟨t + 1, by omega, le_refl _, hf⟩

/-- Helper: the first crossing of a sequence that finishes at step t + 1
without having crossed before is t + 1. -/
theorem firstCross_eq {n : ℕ} (d : GenData n) (T : ℝ) (i : Fin n) (t : ℕ)
    (hnot : ¬ crossedBy d T i t) (hf : finishedAt d T i (t + 1)) :
    firstCross d T i = t + 1 := by
  have hmem : t + 1 ∈ {u | 1 ≤ u ∧ finishedAt d T i u} := ⟨by omega, hf⟩
  have hub : firstCross d T i ≤ t + 1 := Nat.sInf_le hmem
  have hne : {u | 1 ≤ u ∧ finishedAt d T i u}.Nonempty := ⟨t + 1, hmem⟩
  have hin := Nat.sInf_mem hne
  have hlb : t + 1 ≤ firstCross d T i := by
    by_contra hcon
    exact hnot ⟨firstCross d T i, hin.1, by omega, hin.2⟩
  omega

/-- Helper: one loop body preserves the invariant, advancing it by one
step index. -/
theorem genStep_inv {n : ℕ} (d : GenData n) (T : ℝ) (t : ℕ) (s : GenSt n)
    (h : genInv d T t s) : genInv d T (t + 1) (genStep d T t s) := by
  intro i
  obtain ⟨hdone, hc, hnc⟩ := h i
  refine ⟨?_, ?_, ?_⟩
  · show s.done i ∨ finishedAt d T i (t + 1) ↔ _
    rw [crossedBy_succ_iff]
    exact or_congr hdone Iff.rfl
  · intro hcr
    show (if finishedAt d T i (t + 1) ∧ ¬ s.done i then t + 1 else s.len i) = _
    by_cases hd : s.done i
    · rw [if_neg (by tauto)]
      exact hc (hdone.mp hd)
    · by_cases hf : finishedAt d T i (t + 1)
      · rw [if_pos ⟨hf, hd⟩]
        exact (firstCross_eq d T i t (fun hct => hd (hdone.mpr hct)) hf).symm
      · exfalso
        rcases (crossedBy_succ_iff d T i t).mp hcr with hct | hft
        · exact hd (hdone.mpr hct)
        · exact hf hft
  · intro hncr
    have hnf : ¬ finishedAt d T i (t + 1) :=
      fun hf => hncr ((crossedBy_succ_iff d T i t).mpr (Or.inr hf))
    have hnct : ¬ crossedBy d T i t :=
      fun hct => hncr ((crossedBy_succ_iff d T i t).mpr (Or.inl hct))
    show (if finishedAt d T i (t + 1) ∧ ¬ s.done i then t + 1 else s.len i) = _
    rw [if_neg (by tauto)]
    exact hnc hnct

/-- Helper: full specification of the generate loop, by induction on the
remaining iteration count.  Starting from a state satisfying the
invariant at index t with fuel + 1 iterations left, the loop returns a
state satisfying the invariant one past the last executed index, the
last executed index stays within bounds, the loop either exhausts its
iterations or ends with every sequence done, and it never runs past the
first index at which the whole batch has crossed. -/
theorem genLoop_spec {n : ℕ} (d : GenData n) (T : ℝ) :
    ∀ fuel t s, genInv d T t s →
      genInv d T ((genLoop d T t (fuel + 1) s).2 + 1) (genLoop d T t (fuel + 1) s).1 ∧
      t ≤ (genLoop d T t (fuel + 1) s).2 ∧
      (genLoop d T t (fuel + 1) s).2 ≤ t + fuel ∧
      ((genLoop d T t (fuel + 1) s).2 = t + fuel ∨
        allDone (genLoop d T t (fuel + 1) s).1) ∧
      (∀ v, t + 1 ≤ v → v ≤ (genLoop d T t (fuel + 1) s).2 →
        ¬ ∀ i, crossedBy d T i v) := by
  intro fuel
  induction fuel with
  | zero =>
    intro t s hs
    have hunfold : genLoop d T t 1 s = (genStep d T t s, t) := by
      simp [genLoop]
    rw [hunfold]
    refine ⟨genStep_inv d T t s hs, le_refl t, by omega, Or.inl (by omega), ?_⟩
    intro v h1 h2
    omega
  | succ f ih =>
    intro t s hs
    have hinvStep := genStep_inv d T t s hs
    by_cases hall : allDone (genStep d T t s)
    · have hunfold : genLoop d T t (f + 1 + 1) s = (genStep d T t s, t) := by
        rw [genLoop, if_pos (Or.inl hall)]
      rw [hunfold]
      refine ⟨hinvStep, le_refl t, by omega, Or.inr hall, ?_⟩
      intro v h1 h2
      omega
    · have hunfold : genLoop d T t (f + 1 + 1) s =
          genLoop d T (t + 1) (f + 1) (genStep d T t s) := by
        rw [genLoop, if_neg]
        push_neg
        exact ⟨hall, Nat.succ_ne_zero f⟩
      rw [hunfold]
      obtain ⟨h1, h2, h3, h4, h5⟩ := ih (t + 1) (genStep d T t s) hinvStep
      refine ⟨h1, by omega, by omega, ?_, ?_⟩
      · rcases h4 with h4 | h4
        · exact Or.inl (by omega)
        · exact Or.inr h4
      · intro v hv1 hv2 hcall
        by_cases hv : v = t + 1
        · subst hv
          exact hall fun i => ((hinvStep i).1).mpr (hcall i)
        · exact h5 v (by omega) hv2 hcall

/-- C2: for every batch, threshold T and positive iteration bound
M + 1, the generate call returns lengths and a last executed index such
that the index stays below the bound; a sequence that crossed within
the executed window has its recorded length equal to its first crossing,
at which its position is within distance T of the target; a sequence
that never crossed gets length M + 1; hence every sequence has its
final position at its recorded length within T of the target or its
length equals the iteration bound; and the loop stops at the first step
count by which the whole batch has crossed. -/
theorem trajectory_generate_early_stopping (n M : ℕ) (d : GenData n) (T : ℝ) :
    (runGenerate d T (M + 1)).2 ≤ M ∧
    (∀ i, crossedBy d T i ((runGenerate d T (M + 1)).2 + 1) →
      (runGenerate d T (M + 1)).1 i = firstCross d T i ∧
      finishedAt d T i ((runGenerate d T (M + 1)).1 i)) ∧
    (∀ i, ¬ crossedBy d T i ((runGenerate d T (M + 1)).2 + 1) →
      (runGenerate d T (M + 1)).1 i = M + 1) ∧
    (∀ i, finishedAt d T i ((runGenerate d T (M + 1)).1 i) ∨
      (runGenerate d T (M + 1)).1 i = M + 1) ∧
    (∀ v, 1 ≤ v → (∀ i, crossedBy d T i v) →
      (runGenerate d T (M + 1)).2 + 1 ≤ v) := by
  have hinv0 : genInv d T 0 (⟨fun _ => False, fun _ => 0⟩ : GenSt n) := by
    intro i
    refine ⟨iff_of_false (fun h => h) (crossedBy_zero d T i), ?_, ?_⟩
    · intro h
      exact absurd h (crossedBy_zero d T i)
    · intro _
      rfl
  obtain ⟨hinv, h0le, hle, hdisj, hmin⟩ := genLoop_spec d T M 0 _ hinv0
  have hL2 : (runGenerate d T (M + 1)).2 =
      (genLoop d T 0 (M + 1) ⟨fun _ => False, fun _ => 0⟩).2 := rfl
  have hcross_part : ∀ i,
      crossedBy d T i ((runGenerate d T (M + 1)).2 + 1) →
      (runGenerate d T (M + 1)).1 i = firstCross d T i ∧
      finishedAt d T i ((runGenerate d T (M + 1)).1 i) := by
    intro i hcr
    obtain ⟨u, hu1, hu2, huf⟩ := hcr
    have hne : {u | 1 ≤ u ∧ finishedAt d T i u}.Nonempty := ⟨u, hu1, huf⟩
    have hmem := Nat.sInf_mem hne
    have hlen : (genLoop d T 0 (M + 1) ⟨fun _ => False, fun _ => 0⟩).1.len i =
        firstCross d T i := (hinv i).2.1 ⟨u, hu1, hu2, huf⟩
    have hpos : 1 ≤ firstCross d T i := hmem.1
    have hval : (runGenerate d T (M + 1)).1 i = firstCross d T i := by
      show (if (genLoop d T 0 (M + 1) ⟨fun _ => False, fun _ => 0⟩).1.len i = 0
          then (genLoop d T 0 (M + 1) ⟨fun _ => False, fun _ => 0⟩).2 + 1
          else (genLoop d T 0 (M + 1) ⟨fun _ => False, fun _ => 0⟩).1.len i) = _
      rw [hlen, if_neg (by omega)]
    exact ⟨hval, hval ▸ hmem.2⟩
  have hnocross_part : ∀ i,
      ¬ crossedBy d T i ((runGenerate d T (M + 1)).2 + 1) →
      (runGenerate d T (M + 1)).1 i = M + 1 := by
    intro i hncr
    have hlen0 : (genLoop d T 0 (M + 1) ⟨fun _ => False, fun _ => 0⟩).1.len i = 0 :=
      (hinv i).2.2 hncr
    have hfull : (genLoop d T 0 (M + 1) ⟨fun _ => False, fun _ => 0⟩).2 = M := by
      rcases hdisj with h | h
      · omega
      · exact absurd ((hinv i).1.mp (h i)) hncr
    show (if (genLoop d T 0 (M + 1) ⟨fun _ => False, fun _ => 0⟩).1.len i = 0
        then (genLoop d T 0 (M + 1) ⟨fun _ => False, fun _ => 0⟩).2 + 1
        else (genLoop d T 0 (M + 1) ⟨fun _ => False, fun _ => 0⟩).1.len i) = _
    rw [if_pos hlen0, hfull]
  refine ⟨by omega, hcross_part, hnocross_part, ?_, ?_⟩
  · intro i
    by_cases hcr : crossedBy d T i ((runGenerate d T (M + 1)).2 + 1)
    · exact Or.inl (hcross_part i hcr).2
    · exact Or.inr (hnocross_part i hcr)
  · intro v hv1 hall
    by_contra hcon
    exact hmin v hv1 (by omega) hall

/-- C3: the gradient penalty computation truncates to the common
minimum padded width, clamps the lengths to it, interpolates with one
per-sequence coefficient shared by the trajectory and dt tensors, and
returns the mean over the batch of the squared deviation of the
flattened gradient two-norm from 1, a value that is non-negative for
all finite inputs. -/
theorem gradient_penalty_spec (b : ℕ) (x : GPInput (b + 1))
    (gradOf : (Fin (b + 1) → ℕ → ℝ × ℝ) → (Fin (b + 1) → ℕ → ℝ) →
      (Fin (b + 1) → ℕ) → Fin (b + 1) → ℕ → ℝ × ℝ) :
    0 ≤ computeGradientPenalty x gradOf ∧
    computeGradientPenalty x gradOf =
      (∑ i : Fin (b + 1),
        (flatNorm (gradOf (interpolatedTraj x) (interpolatedDts x) (gpLengths x) i)
            (gpMinLen x) - 1) ^ 2) / ((b : ℝ) + 1) ∧
    gpMinLen x = min x.realWidth x.fakeWidth ∧
    (∀ i, gpLengths x i ≤ gpMinLen x) ∧
    (∀ i, x.lengths i ≤ gpMinLen x → gpLengths x i = x.lengths i) ∧
    (∀ i t, interpolatedTraj x i t =
      (x.alpha i * (x.realTraj i t).1 + (1 - x.alpha i) * (x.fakeTraj i t).1,
       x.alpha i * (x.realTraj i t).2 + (1 - x.alpha i) * (x.fakeTraj i t).2) ∧
      interpolatedDts x i t =
        x.alpha i * x.realDts i t + (1 - x.alpha i) * x.fakeDts i t) := by
  refine ⟨?_, ?_, rfl, ?_, ?_, fun i t => ⟨rfl, rfl⟩⟩
  · apply div_nonneg (Finset.sum_nonneg fun i _ => sq_nonneg _)
    positivity
  · show _ / ((((b + 1) : ℕ)) : ℝ) = _ / ((b : ℝ) + 1)
    push_cast
    rfl
  · intro i
    exact min_le_right _ _
  · intro i hle
    exact min_eq_left hle

/-- Helper: the cumulative-sum list has the same length as its input. -/
theorem cumsumFrom_length :
    ∀ (l : List (ℝ × ℝ)) (acc : ℝ × ℝ), (cumsumFrom acc l).length = l.length := by
  intro l
  induction l with
  | nil => intro acc; rfl
  | cons x xs ih =>
    intro acc
    simp [cumsumFrom, ih]

/-- Helper: entry t of the cumulative-sum list is the accumulator plus
the componentwise sum of the first t + 1 deltas. -/
theorem cumsumFrom_get :
    ∀ (l : List (ℝ × ℝ)) (acc : ℝ × ℝ) (t : ℕ), t < l.length →
      (cumsumFrom acc l).get? t =
        some (acc.1 + ((l.take (t + 1)).map Prod.fst).sum,
              acc.2 + ((l.take (t + 1)).map Prod.snd).sum) := by
  intro l
  induction l with
  | nil =>
    intro acc t ht
    simp at ht
  | cons x xs ih =>
    intro acc t ht
    cases t with
    | zero =>
      simp [cumsumFrom]
    | succ t =>
      have ht2 : t < xs.length := by simpa using ht
      simp only [cumsumFrom, List.get?_cons_succ]
      rw [ih _ t ht2]
      simp only [List.take_succ_cons, List.map_cons, List.sum_cons,
        Option.some.injEq, Prod.mk.injEq]
      constructor <;> ring

/-- C9: trajectoryToAbsolute returns one row more than the delta count,
row 0 equals the start, row t + 1 equals the start plus the sum of the
first t + 1 deltas; and the discriminator-step caller passes the
absolute trajectory, the dt vector with one leading 0.001 entry, and
the length plus one. -/
theorem trajectory_to_absolute_spec (start : ℝ × ℝ) (deltas : List (ℝ × ℝ))
    (seq : List (ℝ × ℝ × ℝ)) (length t : ℕ) (ht : t < deltas.length) :
    (trajectoryToAbsolute start deltas).length = deltas.length + 1 ∧
    (trajectoryToAbsolute start deltas).get? 0 = some start ∧
    (trajectoryToAbsolute start deltas).get? (t + 1) =
      some (start.1 + ((deltas.take (t + 1)).map Prod.fst).sum,
            start.2 + ((deltas.take (t + 1)).map Prod.snd).sum) ∧
    (discRealArgs start seq length).2.2 = length + 1 ∧
    (discRealArgs start seq length).2.1 = 0.001 :: seq.map (fun s => s.2.2) ∧
    (discRealArgs start seq length).1 =
      trajectoryToAbsolute start (seq.map fun s => (s.1, s.2.1)) := by
  refine ⟨?_, rfl, ?_, rfl, rfl, rfl⟩
  · simp [trajectoryToAbsolute, cumsum, cumsumFrom_length]
  · show ((cumsum deltas).map fun p => (p.1 + start.1, p.2 + start.2)).get? t = _
    rw [List.get?_map, cumsum, cumsumFrom_get deltas (0, 0) t ht]
    simp only [Option.map_some', Option.some.injEq, Prod.mk.injEq]
    constructor <;> ring

/-- C9 witness: one concrete sequence with a single delta evaluates to
the stated rows and caller arguments. -/
theorem trajectory_to_absolute_witness :
    (0 < ([((3 : ℝ), (4 : ℝ))] : List (ℝ × ℝ)).length) ∧
    ((trajectoryToAbsolute (1, 2) [(3, 4)]).length = 1 + 1 ∧
     (trajectoryToAbsolute (1, 2) [(3, 4)]).get? 0 = some (1, 2) ∧
     (trajectoryToAbsolute (1, 2) [(3, 4)]).get? (0 + 1) =
       some ((1 : ℝ) + ((([((3 : ℝ), (4 : ℝ))].take (0 + 1)).map Prod.fst).sum),
             (2 : ℝ) + ((([((3 : ℝ), (4 : ℝ))].take (0 + 1)).map Prod.snd).sum)) ∧
     (discRealArgs (1, 2) ([] : List (ℝ × ℝ × ℝ)) 0).2.2 = 0 + 1 ∧
     (discRealArgs (1, 2) ([] : List (ℝ × ℝ × ℝ)) 0).2.1 =
       0.001 :: ([] : List (ℝ × ℝ × ℝ)).map (fun s => s.2.2) ∧
     (discRealArgs (1, 2) ([] : List (ℝ × ℝ × ℝ)) 0).1 =
       trajectoryToAbsolute (1, 2) (([] : List (ℝ × ℝ × ℝ)).map fun s => (s.1, s.2.1))) :=
  ⟨by norm_num, trajectory_to_absolute_spec (1, 2) [(3, 4)] [] 0 0 (by norm_num)⟩

/-- C10: in both training forward passes the teacher-forcing decision
at each timestep is one draw shared by the entire batch: at any step,
either every sequence is fed its own prediction as the next input, or
targets are present and every sequence is fed the ground-truth step.
The draw is never made per sequence. -/
theorem teacher_forcing_batchwide (n m : ℕ) (S S2 : Type) (g : KbGen n S)
    (tg : TrajGen m S2) (kbTargets : Option (Fin n → ℕ → ℝ × ℝ))
    (trTargets : Option (Fin m → ℕ → ℝ × ℝ × ℝ)) (ratio ratio2 : ℝ)
    (rand rand2 : ℕ → ℝ) (t : ℕ) :
    ((∀ i, kbChosen g kbTargets ratio rand i t =
        kbOutput g kbTargets ratio rand i t) ∨
     (∃ tgt, kbTargets = some tgt ∧
        ∀ i, kbChosen g kbTargets ratio rand i t = tgt i t)) ∧
    ((∀ i, trajChosen tg trTargets ratio2 rand2 i t =
        trajOutput tg trTargets ratio2 rand2 i t) ∨
     (∃ tgt, trTargets = some tgt ∧
        ∀ i, trajChosen tg trTargets ratio2 rand2 i t = tgt i t)) := by
  constructor
  · cases kbTargets with
    | none =>
      left
      intro i
      simp [kbChosen, kbStates, kbOutput]
    | some tgt =>
      by_cases h : rand t < ratio
      · right
        exact ⟨tgt, rfl, fun i => by simp [kbChosen, kbStates, h]⟩
      · left
        intro i
        simp [kbChosen, kbStates, kbOutput, h]
  · cases trTargets with
    | none =>
      left
      intro i
      simp [trajChosen, trajStates, trajOutput]
    | some tgt =>
      by_cases h : rand2 t < ratio2
      · right
        exact ⟨tgt, rfl, fun i => by simp [trajChosen, trajStates, h]⟩
      · left
        intro i
        simp [trajChosen, trajStates, trajOutput, h]

/-- C6: for any batch with padded width at least 1, lengths at most the
width and character ids within the vocabulary, every packed length is
clamped into 1..width (so a length of 0 becomes 1 before recurrent
packing), and both discriminator forward passes succeed and return one
score row of width 1 per sequence, so a batch of 4 sequences yields
shape (4, 1). -/
theorem discriminator_padding_safe (B W vocab : ℕ) (V H E V2 H2 : Type)
    (net : MouseDiscNet V H) (knet : KbDiscNet E V2 H2)
    (trajectories : Fin B → ℕ → ℝ × ℝ) (dts : Fin B → ℕ → ℝ)
    (charIds : Fin B → ℕ → ℕ) (hold flight : Fin B → ℕ → ℚ)
    (lengths : Fin B → ℕ)
    (hW : 1 ≤ W) (hlen : ∀ i, lengths i ≤ W)
    (hids : ∀ i, ∀ t < W, charIds i t < vocab) :
    (∀ i, 1 ≤ packLengths lengths i ∧ packLengths lengths i ≤ W) ∧
    (∃ out, mouseDiscForward net trajectories dts lengths W = some out ∧
      out.length = B ∧ ∀ r ∈ out, r.length = 1) ∧
    (∃ out, kbDiscForward knet vocab charIds hold flight lengths W = some out ∧
      out.length = B ∧ ∀ r ∈ out, r.length = 1) := by
  have hpack : ∀ i, packLengths lengths i ≤ W := fun i => max_le (hlen i) hW
  refine ⟨fun i => ⟨le_max_right _ _, hpack i⟩, ?_, ?_⟩
  · refine ⟨List.ofFn fun i : Fin B =>
      [net.head (net.bilstm ((List.range (packLengths lengths i)).map fun t =>
        net.encoder (computeKinematics (trajectories i) (dts i) t)))], ?_, ?_, ?_⟩
    · unfold mouseDiscForward
      rw [if_pos hpack]
    · simp
    · intro r hr
      simp only [List.mem_ofFn] at hr
      obtain ⟨i, rfl⟩ := hr
      rfl
  · refine ⟨List.ofFn fun i : Fin B =>
      [knet.head (knet.bilstm ((List.range (packLengths lengths i)).map fun t =>
        knet.encoder (knet.charEmbedding (charIds i t),
          computeRhythmFeatures (hold i) (flight i) t)))], ?_, ?_, ?_⟩
    · unfold kbDiscForward
      rw [if_pos ⟨hids, hpack⟩]
    · simp
    · intro r hr
      simp only [List.mem_ofFn] at hr
      obtain ⟨i, rfl⟩ := hr
      rfl

/-- C6 witness: the concrete scenario of 4 sequences of true lengths
15, 10, 5, 5 padded to width 15, with trivial learned components. -/
theorem discriminator_padding_witness :
    ((1 : ℕ) ≤ 15) ∧
    (∀ i : Fin 4, (![15, 10, 5, 5] : Fin 4 → ℕ) i ≤ 15) ∧
    (∀ i : Fin 4, ∀ t < 15, (fun (_ : Fin 4) (_ : ℕ) => (0 : ℕ)) i t < 1) ∧
    ((∀ i, 1 ≤ packLengths (![15, 10, 5, 5] : Fin 4 → ℕ) i ∧
        packLengths (![15, 10, 5, 5] : Fin 4 → ℕ) i ≤ 15) ∧
     (∃ out, mouseDiscForward
          (⟨fun _ => (), fun _ => (), fun _ => 0⟩ : MouseDiscNet Unit Unit)
          (fun (_ : Fin 4) (_ : ℕ) => ((0 : ℝ), (0 : ℝ))) (fun _ _ => 0)
          (![15, 10, 5, 5] : Fin 4 → ℕ) 15 = some out ∧
        out.length = 4 ∧ ∀ r ∈ out, r.length = 1) ∧
     (∃ out, kbDiscForward
          (⟨fun _ => (), fun _ => (), fun _ => (), fun _ => 0⟩ :
            KbDiscNet Unit Unit Unit)
          1 (fun (_ : Fin 4) (_ : ℕ) => (0 : ℕ)) (fun _ _ => 0) (fun _ _ => 0)
          (![15, 10, 5, 5] : Fin 4 → ℕ) 15 = some out ∧
        out.length = 4 ∧ ∀ r ∈ out, r.length = 1)) :=
  ⟨by norm_num, by decide, by decide,
   discriminator_padding_safe 4 15 1 Unit Unit Unit Unit Unit
     ⟨fun _ => (), fun _ => (), fun _ => 0⟩
     ⟨fun _ => (), fun _ => (), fun _ => (), fun _ => 0⟩
     (fun _ _ => ((0 : ℝ), (0 : ℝ))) (fun _ _ => 0)
     (fun _ _ => (0 : ℕ)) (fun _ _ => 0) (fun _ _ => 0)
     (![15, 10, 5, 5] : Fin 4 → ℕ)
     (by norm_num) (by decide) (by decide)⟩

/-- Helper: subtraction of equal-width tensors succeeds elementwise. -/
theorem matSub_cols_eq {B : ℕ} (a b : Mat B) (h : a.cols = b.cols) :
    matSub a b = some ⟨a.cols, fun i t => a.ent i t - b.ent i t⟩ := by
  unfold matSub
  rw [if_pos h]

/-- Helper: atan2 of equal-width tensors succeeds elementwise. -/
theorem matAtan2_cols_eq {B : ℕ} (y x : Mat B) (h : y.cols = x.cols) :
    matAtan2 y x = some ⟨y.cols, fun i t => atan2 (y.ent i t) (x.ent i t)⟩ := by
  unfold matAtan2
  rw [if_pos h]

/-- Helper: a linear layer raises on an input whose width disagrees
with the learned weight matrix. -/
theorem matLinear_of_ne {B : ℕ} (inF outF : ℕ) (w : ℕ → ℕ → ℝ) (bias : ℕ → ℝ)
    (x : Mat B) (h : x.cols ≠ inF) : matLinear inF outF w bias x = none := by
  unfold matLinear
  rw [if_neg h]

/-- Helper: a linear layer with a matching input width succeeds and
produces the output width. -/
theorem matLinear_of_eq {B : ℕ} (inF outF : ℕ) (w : ℕ → ℕ → ℝ) (bias : ℕ → ℝ)
    (x : Mat B) (h : x.cols = inF) :
    matLinear inF outF w bias x =
      some ⟨outF, fun i o => (∑ t ∈ Finset.range inF, w o t * x.ent i t) + bias o⟩ := by
  unfold matLinear
  rw [if_pos h]

/-- Helper: the atan2 of the two condition slices succeeds for every
source width, with the width of the second-column slice (torch
broadcasts the width-1 first-column slice against an empty second-column
slice when the source is a single column). -/
theorem matAtan2_slice_exists {B : ℕ} (c : ℕ) (f : Fin B → ℕ → ℝ) :
    ∃ A : Mat B, matAtan2 (matSlice ⟨c, f⟩ 1 2) (matSlice ⟨c, f⟩ 0 1) = some A ∧
      A.cols = min 2 c - min 1 c := by
  rcases c with _ | _ | c
  · exact ⟨_, matAtan2_cols_eq _ _ (by simp [matSlice]), by simp [matSlice]⟩
  · refine ⟨⟨(matSlice (⟨1, f⟩ : Mat B) 1 2).cols,
      fun i t => atan2 ((matSlice (⟨1, f⟩ : Mat B) 1 2).ent i t)
        ((matSlice (⟨1, f⟩ : Mat B) 0 1).ent i 0)⟩, ?_, ?_⟩
    · unfold matAtan2
      rw [if_neg (by simp [matSlice]), if_neg (by simp [matSlice]),
        if_pos (by simp [matSlice])]
    · simp [matSlice]
  · exact ⟨_, matAtan2_cols_eq _ _ (by simp [matSlice]), by simp [matSlice]⟩

/-- Helper: the shared tail of both condition encoders (norm stage,
second linear layer, norm stage) succeeds on a width-hd input and keeps
the width. -/
theorem condEncTail {B : ℕ} (net : CondEncNet B) (hd : ℕ) (x : Mat B)
    (h : x.cols = hd) :
    ∃ c, ((matLinear hd hd net.w2 net.b2 (applyNorm net.norm1 x)).bind
      fun h2 => some (applyNorm net.norm2 h2)) = some c ∧ c.cols = hd := by
  rw [matLinear_of_eq _ _ _ _ _ (show (applyNorm net.norm1 x).cols = hd from h),
    Option.some_bind]
  exact ⟨_, rfl, rfl⟩

/-- Helper: the keystroke condition encoder succeeds exactly on a
latent vector of the configured width and yields the hidden width. -/
theorem kbConditionEncoder_some {B : ℕ} (latentDim hiddenDim : ℕ)
    (net : CondEncNet B) (z : Mat B) (h : z.cols = latentDim) :
    ∃ c, kbConditionEncoder latentDim hiddenDim net z = some c ∧
      c.cols = hiddenDim := by
  unfold kbConditionEncoder
  rw [matLinear_of_eq _ _ _ _ _ h, Option.some_bind]
  exact condEncTail net hiddenDim _ rfl
/-- Helper: broadcasting subtraction with a width-1 left operand. -/
theorem matSub_bcast_left {B : ℕ} (a b : Mat B) (hne : a.cols ≠ b.cols)
    (h1 : a.cols = 1) :
    matSub a b = some ⟨b.cols, fun i t => a.ent i 0 - b.ent i t⟩ := by
  unfold matSub
  rw [if_neg hne, if_pos h1]

/-- Helper: broadcasting subtraction with a width-1 right operand. -/
theorem matSub_bcast_right {B : ℕ} (a b : Mat B) (hne : a.cols ≠ b.cols)
    (hna : a.cols ≠ 1) (h1 : b.cols = 1) :
    matSub a b = some ⟨a.cols, fun i t => a.ent i t - b.ent i 0⟩ := by
  unfold matSub
  rw [if_neg hne, if_neg hna, if_pos h1]

/-- Helper: subtraction of incompatible widths raises. -/
theorem matSub_none {B : ℕ} (a b : Mat B) (hne : a.cols ≠ b.cols)
    (hna : a.cols ≠ 1) (hnb : b.cols ≠ 1) : matSub a b = none := by
  unfold matSub
  rw [if_neg hne, if_neg hna, if_neg hnb]

/-- Helper: the condition encoder succeeds when the concatenation that
feeds its first linear layer has exactly the expected width. -/
theorem mouseComputeCondition_of_some {B : ℕ} (latentDim hiddenDim : ℕ)
    (net : CondEncNet B) (start endp z : Mat B) (D A : Mat B)
    (hD : matSub endp start = some D)
    (hA : matAtan2 (matSlice D 1 2) (matSlice D 0 1) = some A)
    (hw : start.cols + endp.cols + 1 + A.cols + z.cols = 6 + latentDim) :
    ∃ c, mouseComputeCondition latentDim hiddenDim net start endp z = some c ∧
      c.cols = hiddenDim := by
  unfold mouseComputeCondition
  rw [hD, Option.some_bind, hA, Option.some_bind,
    matLinear_of_eq _ _ _ _ _ ?_, Option.some_bind]
  · exact condEncTail net hiddenDim _ rfl
  · simp only [matCat, matDistCol, List.map_cons, List.map_nil, List.sum_cons,
      List.sum_nil]
    omega

/-- Helper: the condition encoder raises when the concatenation that
feeds its first linear layer has any other width. -/
theorem mouseComputeCondition_of_none {B : ℕ} (latentDim hiddenDim : ℕ)
    (net : CondEncNet B) (start endp z : Mat B) (D A : Mat B)
    (hD : matSub endp start = some D)
    (hA : matAtan2 (matSlice D 1 2) (matSlice D 0 1) = some A)
    (hw : start.cols + endp.cols + 1 + A.cols + z.cols ≠ 6 + latentDim) :
    mouseComputeCondition latentDim hiddenDim net start endp z = none := by
  unfold mouseComputeCondition
  rw [hD, Option.some_bind, hA, Option.some_bind,
    matLinear_of_ne _ _ _ _ _ ?_, Option.none_bind]
  simp only [matCat, matDistCol, List.map_cons, List.map_nil, List.sum_cons,
    List.sum_nil]
  omega

/-- Helper: the condition encoder raises when the context subtraction
itself raises. -/
theorem mouseComputeCondition_none_sub {B : ℕ} (latentDim hiddenDim : ℕ)
    (net : CondEncNet B) (start endp z : Mat B)
    (hD : matSub endp start = none) :
    mouseComputeCondition latentDim hiddenDim net start endp z = none := by
  unfold mouseComputeCondition
  rw [hD, Option.none_bind]

/-- Helper: the dynamic features evaluate to the concatenation of the
remaining displacement, its distance column and the remaining angle. -/
theorem mouseDynamicFeats_of_some {B : ℕ} (pos endp : Mat B) (D A : Mat B)
    (hD : matSub endp pos = some D)
    (hA : matAtan2 (matSlice D 1 2) (matSlice D 0 1) = some A) :
    mouseDynamicFeats pos endp = some (matCat [D, matDistCol D, A]) := by
  unfold mouseDynamicFeats
  rw [hD, Option.some_bind, hA, Option.some_bind]

/-- Helper: a condition-encoder failure makes the whole forward
boundary fail. -/
theorem mouseForwardBoundary_cond_none {B : ℕ} (latentDim hiddenDim : ℕ)
    (net : CondEncNet B) (init3 : Fin B → ℕ → ℝ) (start endp z : Mat B)
    (h : mouseComputeCondition latentDim hiddenDim net start endp z = none) :
    mouseForwardBoundary latentDim hiddenDim net init3 start endp z = none := by
  unfold mouseForwardBoundary
  rw [h, Option.none_bind]

/-- Helper: when the condition encoder succeeds but the dynamic
features do not have width 4, the recurrent cell raises on its first
input and the forward boundary fails. -/
theorem mouseForwardBoundary_rnn_reject {B : ℕ} (latentDim hiddenDim : ℕ)
    (net : CondEncNet B) (init3 : Fin B → ℕ → ℝ) (start endp z : Mat B)
    (D A : Mat B)
    (hD : matSub endp start = some D)
    (hA : matAtan2 (matSlice D 1 2) (matSlice D 0 1) = some A)
    (hw : start.cols + endp.cols + 1 + A.cols + z.cols = 6 + latentDim)
    (hdw : D.cols + 1 + A.cols ≠ 4) :
    mouseForwardBoundary latentDim hiddenDim net init3 start endp z = none := by
  obtain ⟨c, hc, hccols⟩ :=
    mouseComputeCondition_of_some latentDim hiddenDim net start endp z D A hD hA hw
  unfold mouseForwardBoundary
  rw [hc, Option.some_bind, mouseDynamicFeats_of_some start endp D A hD hA,
    Option.some_bind, if_neg ?_]
  simp only [matCat, matDistCol, List.map_cons, List.map_nil, List.sum_cons,
    List.sum_nil]
  omega

/-- Helper: when the condition encoder succeeds and the dynamic
features have width 4, the forward boundary succeeds. -/
theorem mouseForwardBoundary_ok {B : ℕ} (latentDim hiddenDim : ℕ)
    (net : CondEncNet B) (init3 : Fin B → ℕ → ℝ) (start endp z : Mat B)
    (D A : Mat B)
    (hD : matSub endp start = some D)
    (hA : matAtan2 (matSlice D 1 2) (matSlice D 0 1) = some A)
    (hw : start.cols + endp.cols + 1 + A.cols + z.cols = 6 + latentDim)
    (hdw : D.cols + 1 + A.cols = 4) :
    ∃ r, mouseForwardBoundary latentDim hiddenDim net init3 start endp z = some r := by
  obtain ⟨c, hc, hccols⟩ :=
    mouseComputeCondition_of_some latentDim hiddenDim net start endp z D A hD hA hw
  unfold mouseForwardBoundary
  rw [hc, Option.some_bind, mouseDynamicFeats_of_some start endp D A hD hA,
    Option.some_bind, if_pos ?_]
  · exact ⟨_, rfl⟩
  · simp only [matCat, matDistCol, List.map_cons, List.map_nil, List.sum_cons,
      List.sum_nil]
    omega

/-- C8: a latent vector whose width differs from latent_dim, a context
whose shape disagrees with the configured (batch, 2) coordinate pairs
(any pair of widths, equal or mixed), or a character id outside the
vocabulary bound, makes the generator call fail synchronously: at the
context subtraction, at the concatenation-fed linear layer of the
condition encoder, at the recurrent cell of the first decode step, or
at the embedding lookup.  A call with agreeing shapes succeeds, so no
disagreeing call is silently broadcast into a successful one. -/
theorem generator_shape_mismatch_rejected
    (B latentDim hiddenDim vocab L : ℕ) (net knet : CondEncNet B)
    (init3 : Fin B → ℕ → ℝ) (table : ℕ → ℕ → ℝ) (ids idsBad : Fin B → ℕ → ℕ)
    (start endp startBad endBad z zBad zk zkBad : Mat B)
    (hstart : start.cols = 2) (hend : endp.cols = 2)
    (hz : z.cols = latentDim) (hzBad : zBad.cols ≠ latentDim)
    (hctx : ¬ (startBad.cols = 2 ∧ endBad.cols = 2))
    (hzk : zk.cols = latentDim) (hzkBad : zkBad.cols ≠ latentDim)
    (hids : ∀ i, ∀ t < L, ids i t < vocab)
    (hidsBad : ∃ i, ∃ t, t < L ∧ vocab ≤ idsBad i t) :
    mouseForwardBoundary latentDim hiddenDim net init3 start endp zBad = none ∧
    mouseForwardBoundary latentDim hiddenDim net init3 startBad endBad z = none ∧
    (∃ r, mouseForwardBoundary latentDim hiddenDim net init3 start endp z = some r) ∧
    kbForwardBoundary latentDim hiddenDim vocab L knet table ids zkBad = none ∧
    kbForwardBoundary latentDim hiddenDim vocab L knet table idsBad zk = none ∧
    (kbForwardBoundary latentDim hiddenDim vocab L knet table ids zk).isSome = true := by
  have hDg : matSub endp start =
      some ⟨endp.cols, fun i t => endp.ent i t - start.ent i t⟩ :=
    matSub_cols_eq endp start (by rw [hend, hstart])
  obtain ⟨Ag, hAg, hAgcols⟩ :=
    matAtan2_slice_exists endp.cols (fun i t => endp.ent i t - start.ent i t)
  have hAg1 : Ag.cols = 1 := by omega
  refine ⟨?_, ?_, ?_, ?_, ?_, ?_⟩
  · exact mouseForwardBoundary_cond_none _ _ _ _ _ _ _
      (mouseComputeCondition_of_none _ _ _ _ _ _ _ Ag hDg hAg (by omega))
  · by_cases h1 : endBad.cols = startBad.cols
    · have hD := matSub_cols_eq endBad startBad h1
      obtain ⟨A, hA, hAc⟩ :=
        matAtan2_slice_exists endBad.cols (fun i t => endBad.ent i t - startBad.ent i t)
      have hne2 : startBad.cols ≠ 2 := by
        intro h
        exact hctx ⟨h, by omega⟩
      exact mouseForwardBoundary_cond_none _ _ _ _ _ _ _
        (mouseComputeCondition_of_none _ _ _ _ _ _ _ A hD hA (by omega))
    · by_cases h2 : endBad.cols = 1
      · have hD := matSub_bcast_left endBad startBad h1 h2
        obtain ⟨A, hA, hAc⟩ :=
          matAtan2_slice_exists startBad.cols (fun i t => endBad.ent i 0 - startBad.ent i t)
        by_cases h3 : startBad.cols = 3
        · refine mouseForwardBoundary_rnn_reject latentDim hiddenDim net init3
            startBad endBad z _ A hD hA (by omega) ?_
          show startBad.cols + 1 + A.cols ≠ 4
          omega
        · exact mouseForwardBoundary_cond_none _ _ _ _ _ _ _
            (mouseComputeCondition_of_none _ _ _ _ _ _ _ A hD hA (by omega))
      · by_cases h3 : startBad.cols = 1
        · have hD := matSub_bcast_right endBad startBad h1 h2 h3
          obtain ⟨A, hA, hAc⟩ :=
            matAtan2_slice_exists endBad.cols (fun i t => endBad.ent i t - startBad.ent i 0)
          by_cases h4 : endBad.cols = 3
          · refine mouseForwardBoundary_rnn_reject latentDim hiddenDim net init3
              startBad endBad z _ A hD hA (by omega) ?_
            show endBad.cols + 1 + A.cols ≠ 4
            omega
          · exact mouseForwardBoundary_cond_none _ _ _ _ _ _ _
              (mouseComputeCondition_of_none _ _ _ _ _ _ _ A hD hA (by omega))
        · exact mouseForwardBoundary_cond_none _ _ _ _ _ _ _
            (mouseComputeCondition_none_sub _ _ _ _ _ _
              (matSub_none endBad startBad h1 h2 h3))
  · refine mouseForwardBoundary_ok latentDim hiddenDim net init3 start endp z
      _ Ag hDg hAg (by omega) ?_
    show endp.cols + 1 + Ag.cols = 4
    omega
  · unfold kbForwardBoundary kbConditionEncoder
    rw [matLinear_of_ne _ _ _ _ _ hzkBad, Option.none_bind, Option.none_bind]
  · unfold kbForwardBoundary
    have hlookup : embeddingLookup vocab table idsBad L = none := by
      unfold embeddingLookup
      rw [if_neg]
      intro hall
      obtain ⟨i, t, hlt, hge⟩ := hidsBad
      exact absurd (hall i t hlt) (not_lt.mpr hge)
    simp only [hlookup, Option.none_bind]
    cases kbConditionEncoder latentDim hiddenDim knet zk with
    | none => rfl
    | some c => rfl
  · unfold kbForwardBoundary
    obtain ⟨c, hc, -⟩ := kbConditionEncoder_some latentDim hiddenDim knet zk hzk
    rw [hc, Option.some_bind]
    have hlookup : embeddingLookup vocab table ids L =
        some fun i t e => table (ids i t) e := by
      unfold embeddingLookup
      rw [if_pos hids]
    rw [hlookup, Option.some_bind]
    rfl

/-- C8 witness: concrete batch of 1 with latent_dim 3, hidden 4,
vocabulary 2, sequence width 1; a width-5 latent vector is rejected, a
mixed-width context (start width 1, end width 3) is rejected even
though its broadcast concatenation reaches the expected encoder width,
an id of 5 is rejected, and the well-shaped call succeeds. -/
theorem generator_shape_mismatch_witness :
    ((⟨2, fun _ _ => 0⟩ : Mat 1).cols = 2) ∧
    ((⟨3, fun _ _ => 0⟩ : Mat 1).cols = 3) ∧
    ((⟨5, fun _ _ => 0⟩ : Mat 1).cols ≠ 3) ∧
    (¬ ((⟨1, fun _ _ => 0⟩ : Mat 1).cols = 2 ∧ (⟨3, fun _ _ => 0⟩ : Mat 1).cols = 2)) ∧
    (∀ i : Fin 1, ∀ t < 1, (fun (_ : Fin 1) (_ : ℕ) => (0 : ℕ)) i t < 2) ∧
    (∃ i : Fin 1, ∃ t, t < 1 ∧ 2 ≤ (fun (_ : Fin 1) (_ : ℕ) => (5 : ℕ)) i t) ∧
    (mouseForwardBoundary 3 4
      (⟨fun _ _ => 0, fun _ => 0, id, fun _ _ => 0, fun _ => 0, id⟩ : CondEncNet 1)
      (fun _ _ => 0) (⟨2, fun _ _ => 0⟩ : Mat 1) (⟨2, fun _ _ => 0⟩ : Mat 1)
      (⟨5, fun _ _ => 0⟩ : Mat 1) = none ∧
     mouseForwardBoundary 3 4
      (⟨fun _ _ => 0, fun _ => 0, id, fun _ _ => 0, fun _ => 0, id⟩ : CondEncNet 1)
      (fun _ _ => 0) (⟨1, fun _ _ => 0⟩ : Mat 1) (⟨3, fun _ _ => 0⟩ : Mat 1)
      (⟨3, fun _ _ => 0⟩ : Mat 1) = none ∧
     (∃ r, mouseForwardBoundary 3 4
        (⟨fun _ _ => 0, fun _ => 0, id, fun _ _ => 0, fun _ => 0, id⟩ : CondEncNet 1)
        (fun _ _ => 0) (⟨2, fun _ _ => 0⟩ : Mat 1) (⟨2, fun _ _ => 0⟩ : Mat 1)
        (⟨3, fun _ _ => 0⟩ : Mat 1) = some r) ∧
     kbForwardBoundary 3 4 2 1
      (⟨fun _ _ => 0, fun _ => 0, id, fun _ _ => 0, fun _ => 0, id⟩ : CondEncNet 1)
      (fun _ _ => 0) (fun _ _ => (0 : ℕ)) (⟨5, fun _ _ => 0⟩ : Mat 1) = none ∧
     kbForwardBoundary 3 4 2 1
      (⟨fun _ _ => 0, fun _ => 0, id, fun _ _ => 0, fun _ => 0, id⟩ : CondEncNet 1)
      (fun _ _ => 0) (fun _ _ => (5 : ℕ)) (⟨3, fun _ _ => 0⟩ : Mat 1) = none ∧
     (kbForwardBoundary 3 4 2 1
      (⟨fun _ _ => 0, fun _ => 0, id, fun _ _ => 0, fun _ => 0, id⟩ : CondEncNet 1)
      (fun _ _ => 0) (fun _ _ => (0 : ℕ))
      (⟨3, fun _ _ => 0⟩ : Mat 1)).isSome = true) :=
  ⟨rfl, rfl, by decide, by decide, by decide, ⟨0, 0, by norm_num, by norm_num⟩,
   generator_shape_mismatch_rejected 1 3 4 2 1
     (⟨fun _ _ => 0, fun _ => 0, id, fun _ _ => 0, fun _ => 0, id⟩ : CondEncNet 1)
     (⟨fun _ _ => 0, fun _ => 0, id, fun _ _ => 0, fun _ => 0, id⟩ : CondEncNet 1)
     (fun _ _ => 0) (fun _ _ => 0) (fun _ _ => (0 : ℕ)) (fun _ _ => (5 : ℕ))
     (⟨2, fun _ _ => 0⟩ : Mat 1) (⟨2, fun _ _ => 0⟩ : Mat 1)
     (⟨1, fun _ _ => 0⟩ : Mat 1) (⟨3, fun _ _ => 0⟩ : Mat 1)
     (⟨3, fun _ _ => 0⟩ : Mat 1) (⟨5, fun _ _ => 0⟩ : Mat 1)
     (⟨3, fun _ _ => 0⟩ : Mat 1) (⟨5, fun _ _ => 0⟩ : Mat 1)
     rfl rfl rfl (by decide) (by decide) rfl (by decide) (by decide)
     ⟨0, 0, by norm_num, by norm_num⟩⟩
